import Mathlib

/-!
Verification of the code-change extraction and proposal pipeline of the
`coder` repository (files `chat_interface.py`, `file_editor.py`).

The Python source is shallowly embedded: Python strings become `List Char`
(written `Str` below), the `str` primitives used by the source
(`find`, `strip`, `lstrip`, `split`, `join`, slicing, membership) are
translated as executable Lean functions, and the stateful parts
(`FileEditor`, the proposal queue of `ChatInterface`) become explicit
state-passing functions.  Loops with non-structural index jumps are given
a fuel parameter; the public entry points instantiate the fuel with a
bound that provably dominates the number of iterations, so the embedded
functions compute by `rfl`/`decide` on concrete inputs.
-/

/-- Python strings are modelled as lists of characters. -/
abbrev Str := List Char

/-- The whitespace predicate of Python's `str.strip` / `str.lstrip`
(restricted to the ASCII whitespace characters, which are the only ones
occurring in the texts considered here). -/
def pyIsSpace (c : Char) : Bool :=
  c = ' ' ∨ c = '\t' ∨ c = '\n' ∨ c = '\r' ∨ c = '\x0b' ∨ c = '\x0c'

/-- Remove the longest prefix of characters satisfying `p`
(Python `str.lstrip` with a character class). -/
def lstripBy (p : Char → Bool) : Str → Str
  | [] => []
  | c :: cs => if p c then lstripBy p cs else c :: cs

/-- Python `s.lstrip()` (strip leading whitespace). -/
def lstripWs (s : Str) : Str := lstripBy pyIsSpace s

/-- Python `s.rstrip()` (strip trailing whitespace). -/
def rstripWs (s : Str) : Str := (lstripBy pyIsSpace s.reverse).reverse

/-- Python `s.strip()`. -/
def pyStrip (s : Str) : Str := rstripWs (lstripWs s)

/-- Python `s.lstrip("#")`, as used by the filename-comment heuristic. -/
def lstripHash (s : Str) : Str := lstripBy (fun c => c = '#') s

/-- Python slicing `s[a:b]` for `0 ≤ a ≤ b` (with the usual clamping). -/
def pySlice (s : Str) (a b : Nat) : Str := (s.drop a).take (b - a)

/-- Indexing `s[i]`, total with a default (only applied in-range by the
embedded code, mirroring the source's always-valid accesses). -/
def charAt (s : Str) (i : Nat) : Char := s.getD i ' '

/-- Least position (0-based) at which `pat` occurs in `t`, scanning from
the left; `none` when there is no occurrence.  This is the core of
Python's `str.find`. -/
def findSub0 (pat : Str) : Str → Option Nat
  | [] => if pat.isPrefixOf ([] : Str) then some 0 else none
  | c :: s => if pat.isPrefixOf (c :: s) then some 0
              else (findSub0 pat s).map (· + 1)

/-- Python `t.find(pat, start)` (with the convention `none` for `-1`):
the least absolute position `≥ start` at which `pat` occurs in `t`. -/
def pyFindFrom (t pat : Str) (start : Nat) : Option Nat :=
  (findSub0 pat (t.drop start)).map (· + start)

/-- Python `pat in t` (substring containment). -/
def containsSub (t pat : Str) : Bool := (findSub0 pat t).isSome

/-- Split a string at every occurrence of the separator character
(Python `s.split(sep)` for a one-character separator; never returns an
empty list, and `"".split(sep) = [""]`). -/
def splitSep (sep : Char) : Str → List Str
  | [] => [[]]
  | c :: cs =>
    if c = sep then [] :: splitSep sep cs
    else
      match splitSep sep cs with
      | [] => [[c]]
      | l :: ls => (c :: l) :: ls

/-- Python `sep.join(parts)` for a one-character separator. -/
def joinSep (sep : Char) : List Str → Str
  | [] => []
  | [l] => l
  | l :: ls => l ++ sep :: joinSep sep ls

/-- `s.split("\n")` as used by `parse_code_blocks`. -/
def splitNl (s : Str) : List Str := splitSep '\n' s

/-- `"\n".join(parts)` as used by `parse_code_blocks`. -/
def joinNl (ls : List Str) : Str := joinSep '\n' ls

/-- `text[i:i+3] == '\x60\x60\x60'`: a fence marker starts at position `i`. -/
def fenceAt (t : Str) (i : Nat) : Bool :=
  List.isPrefixOf ("```".toList) (t.drop i)

/-- A parsed code block: the dictionary
`{"language": ..., "code": ..., "filename": ...}` built by
`ChatInterface.parse_code_blocks` (`chat_interface.py`, lines 145-263). -/
structure CodeBlock where
  language : Str
  code : Str
  filename : Option Str
deriving Repr, DecidableEq

/-- The filename-comment heuristic of `parse_code_blocks`
(`chat_interface.py`, lines 237-253): if the first line of the extracted
body is a `#` comment containing a `.` or `/`, and the text after the
leading `#`s still contains a `.` or `/`, that text is lifted out as the
filename and the first line is dropped from the stored code. -/
def liftFilename (code : Str) : Option Str × Str :=
  match splitNl code with
  | [] => (none, code)
  | first :: rest =>
    let firstLine := pyStrip first
    if List.isPrefixOf ("#".toList) firstLine ∧
        ('.' ∈ firstLine ∨ '/' ∈ firstLine) then
      let potential := pyStrip (lstripHash firstLine)
      if '/' ∈ potential ∨ '.' ∈ potential then
        (some potential, joinNl rest)
      else (none, code)
    else (none, code)

/-- The inner while-loop of `parse_code_blocks` for markdown blocks
(`chat_interface.py`, lines 177-211): walk from `j` looking for fence
lines at line starts, incrementing the nesting counter on a fence whose
tag is non-empty and starts with an alphabetic character, decrementing
on any other fence while the counter is positive, and returning the
position of the closing fence when the counter is `0`.  Returns `none`
when the end of the text is reached first.  `fuel` bounds the number of
iterations; every use supplies at least `t.length + 1`, which dominates
the loop count since `j` strictly increases. -/
def mdScanF (t : Str) : Nat → Nat → Nat → Nat → Option Nat
  | 0, _, _, _ => none
  | fuel + 1, cs, j, nesting =>
    if j < t.length then
      if (j = cs ∨ charAt t (j - 1) = '\n') ∧ fenceAt t j = true then
        let lineEndJ := (pyFindFrom t ['\n'] j).getD t.length
        let afterTicks := pyStrip (pySlice t (j + 3) lineEndJ)
        if afterTicks ≠ [] ∧ (charAt afterTicks 0).isAlpha then
          mdScanF t fuel cs (lineEndJ + 1) (nesting + 1)
        else if 0 < nesting then
          mdScanF t fuel cs (lineEndJ + 1) (nesting - 1)
        else some j
      else mdScanF t fuel cs (j + 1) nesting
    else none

/-- The outer while-loop of `parse_code_blocks` (`chat_interface.py`,
lines 158-261), scanning from position `i` for fence openings.  `fuel`
bounds the number of iterations; the entry point supplies
`t.length + 1`, which dominates the loop count since `i` strictly
increases. -/
def scanFromF (t : Str) : Nat → Nat → List CodeBlock
  | 0, _ => []
  | fuel + 1, i =>
    if i < t.length then
      if fenceAt t i = true then
        match pyFindFrom t ['\n'] i with
        | none => []
        | some lineEnd =>
          let langRaw := pyStrip (pySlice t (i + 3) lineEnd)
          let language := if langRaw = [] then "text".toList else langRaw
          let cs := lineEnd + 1
          if language = "markdown".toList ∨ language = "md".toList then
            match mdScanF t (t.length + 1) cs cs 0 with
            | some j =>
              ⟨language, pyStrip (pySlice t cs j), none⟩ ::
                scanFromF t fuel (j + 3)
            | none => [⟨language, pyStrip (pySlice t cs t.length), none⟩]
          else
            match pyFindFrom t ('\n' :: "```".toList) cs with
            | some closing =>
              let r := liftFilename (pySlice t cs closing)
              ⟨language, pyStrip r.2, r.1⟩ :: scanFromF t fuel (closing + 4)
            | none =>
              match pyFindFrom t ("```".toList) cs with
              | some closing =>
                let r := liftFilename (pySlice t cs closing)
                ⟨language, pyStrip r.2, r.1⟩ :: scanFromF t fuel (closing + 4)
              | none =>
                let r := liftFilename (pySlice t cs t.length)
                [⟨language, pyStrip r.2, r.1⟩]
      else scanFromF t fuel (i + 1)
    else []

/-- `ChatInterface.parse_code_blocks` (`chat_interface.py`, lines
145-263). -/
def parse_code_blocks (t : Str) : List CodeBlock :=
  scanFromF t (t.length + 1) 0

/-- Python `\w` for the ASCII texts considered here: letters, digits and
underscore. -/
def isWordChar (c : Char) : Bool := c.isAlphanum ∨ c = '_'

/-- The character class `[a-zA-Z0-9_-]` of a path segment in the
filename-mention pattern of `_extract_file_mentions`
(`chat_interface.py`, line 342). -/
def isSegChar (c : Char) : Bool := c.isAlphanum ∨ c = '_' ∨ c = '-'

/-- The character class `[a-zA-Z0-9]` of the extension in the
filename-mention pattern. -/
def isExtChar (c : Char) : Bool := c.isAlphanum

/-- The word boundary `\b` at the junction between a word character and
the start of `s` (true at end of text, and when `s` starts with a
non-word character). -/
def boundaryAfterWord : Str → Bool
  | [] => true
  | c :: _ => ¬ isWordChar c

/-- Match the tail `\.[a-zA-Z0-9]+\b` of the filename-mention pattern at
the start of `s`, given the already-consumed part `acc`.  On success,
returns the whole match and the rest of the text. -/
def tryExt (acc : Str) (s : Str) : Option (Str × Str) :=
  match s with
  | '.' :: s1 =>
    let ext := s1.takeWhile isExtChar
    let rest := s1.dropWhile isExtChar
    if ext ≠ [] ∧ boundaryAfterWord rest = true then
      some (acc ++ '.' :: ext, rest)
    else none
  | _ => none

/-- Match `(?:/[a-zA-Z0-9_-]+)*\.[a-zA-Z0-9]+\b` at the start of `s`
with the backtracking-greedy semantics of Python's `re`: prefer
consuming one more `/`-segment, falling back to matching the extension
at the current point.  (Shrinking a segment's `+`-run can never help,
because the characters following a shortened run would still belong to
the segment class, so only the number of segments backtracks.)
`fuel` bounds the recursion depth; callers supply `s.length + 1`. -/
def trySegsF : Nat → Str → Str → Option (Str × Str)
  | 0, _, _ => none
  | fuel + 1, acc, s =>
    match s with
    | '/' :: s1 =>
      let run := s1.takeWhile isSegChar
      if run ≠ [] then
        match trySegsF fuel (acc ++ '/' :: run) (s1.dropWhile isSegChar) with
        | some r => some r
        | none => tryExt acc s
      else tryExt acc s
    | _ => tryExt acc s

/-- Try to match the filename-mention pattern
`\b([a-zA-Z0-9_-]+(?:/[a-zA-Z0-9_-]+)*\.[a-zA-Z0-9]+)\b` at the start of
`s`, where `prevIsWord` records whether the character immediately before
`s` is a word character (for the leading `\b`). -/
def matchToken (prevIsWord : Bool) (s : Str) : Option (Str × Str) :=
  match s with
  | [] => none
  | c :: _ =>
    if ¬ isSegChar c then none
    else if prevIsWord = isWordChar c then none
    else trySegsF (s.length + 1) (s.takeWhile isSegChar) (s.dropWhile isSegChar)

/-- The scanning loop of `re.findall` for the filename-mention pattern:
try the pattern at every position from left to right, emitting
non-overlapping matches in order of first appearance, without
deduplication.  `fuel` bounds the number of positions visited; the
entry point supplies `s.length + 1`. -/
def scanMentionsF : Nat → Bool → Str → List Str
  | 0, _, _ => []
  | _, _, [] => []
  | fuel + 1, prev, c :: cs =>
    match matchToken prev (c :: cs) with
    | some (tok, rest) => tok :: scanMentionsF fuel true rest
    | none => scanMentionsF fuel (isWordChar c) cs

/-- `ChatInterface._extract_file_mentions` (`chat_interface.py`, lines
330-345): `re.findall` of the filename pattern over the message. -/
def extract_file_mentions (text : Str) : List Str :=
  scanMentionsF (text.length + 1) false text

/-- The list `invalid_chars` of `_is_valid_filename`
(`chat_interface.py`, line 370). -/
def invalidChars : Str := ['<', '>', '|', ':', '*', '?', '"']

/-- `ChatInterface._is_valid_filename` (`chat_interface.py`, lines
347-374). -/
def is_valid_filename (filename : Str) : Bool :=
  if ¬ ('.' ∈ filename) ∧ ¬ ('/' ∈ filename) then false
  else if ' ' ∈ filename then false
  else if 200 < filename.length then false
  else if invalidChars.any (fun c => c ∈ filename) then false
  else true

/-- Python `s.lower()` (ASCII case folding, as used on the user
message). -/
def pyLower (s : Str) : Str := s.map Char.toLower

/-- The filename-resolution cascade applied to one block inside
`ChatInterface.auto_create_files` (`chat_interface.py`, lines 286-300):
the parser-extracted filename if present; else the first mentioned
filename when the response held exactly one block; else, for
markdown/md blocks, the first mentioned filename, or `README.md` when
the user message contains "readme" case-insensitively. -/
def resolveFilename (blockFilename : Option Str) (language : Str)
    (numBlocks : Nat) (mentioned : List Str) (userMessage : Str) :
    Option Str :=
  let f1 : Option Str :=
    match blockFilename with
    | some f => some f
    | none =>
      match mentioned with
      | m :: _ => if numBlocks = 1 then some m else none
      | [] => none
  match f1 with
  | some f => some f
  | none =>
    if language = "markdown".toList ∨ language = "md".toList then
      match mentioned with
      | m :: _ => some m
      | [] =>
        if containsSub (pyLower userMessage) ("readme".toList) then
          some ("README.md".toList)
        else none
    else none

/-- A file as seen by the embedded filesystem: its content, and whether
`FileEditor.read_file` can decode it (`read_file` returns the empty
string for unreadable files, `file_editor.py`, lines 86-113). -/
structure FileData where
  content : Str
  readable : Bool
deriving Repr, DecidableEq

/-- The project filesystem, keyed by path relative to the project root.
Association list; the first binding for a path is the current one. -/
abbrev FsA := List (Str × FileData)

/-- Look a path up in the filesystem. -/
def fsGet : FsA → Str → Option FileData
  | [], _ => none
  | (q, d) :: rest, p => if p = q then some d else fsGet rest p

/-- Write a path (create or overwrite). -/
def fsSet (fs : FsA) (p : Str) (d : FileData) : FsA := (p, d) :: fs

/-- `FileEditor.read_file` / `ProjectManager.get_file_content`
(`file_editor.py`, lines 86-113): the content on success, and the empty
string for a missing or unreadable file. -/
def read_file (fs : FsA) (p : Str) : Str :=
  match fsGet fs p with
  | none => []
  | some d => if d.readable then d.content else []

/-- A pending proposal: the dictionary built by
`ChatInterface.propose_change` (`chat_interface.py`, lines 376-394). -/
structure Proposal where
  file_path : Str
  description : Str
  current_content : Str
  new_content : Str
deriving Repr, DecidableEq

/-- The per-block body of the loop in `ChatInterface.auto_create_files`
(`chat_interface.py`, lines 286-327): resolve a filename, and when a
non-empty filename and non-empty code are present and the filename
validates, build the proposal that `propose_change` pushes (an update
proposal carrying the existing content when the read is non-empty, a
creation proposal with empty `current_content` otherwise). -/
def propFor (fs : FsA) (numBlocks : Nat) (mentioned : List Str)
    (userMessage : Str) (b : CodeBlock) : Option Proposal :=
  match resolveFilename b.filename b.language numBlocks mentioned userMessage with
  | none => none
  | some filename =>
    if filename ≠ [] ∧ b.code ≠ [] then
      if is_valid_filename filename then
        let existing := read_file fs filename
        if existing ≠ [] then
          some ⟨filename,
                "Update ".toList ++ filename ++ " with new code".toList,
                existing, b.code⟩
        else
          some ⟨filename, "Create new file ".toList ++ filename, [], b.code⟩
      else none
    else none

/-- `ChatInterface.auto_create_files` (`chat_interface.py`, lines
265-328): the ordered list of proposals pushed into the pending queue
for one response.  (The Python function returns their count and appends
them to `self.pending_proposals`; the list models that queue
appendage.) -/
def pushProp (acc : List Proposal) (o : Option Proposal) : List Proposal :=
  match o with
  | some p => acc ++ [p]
  | none => acc

def auto_create_files (fs : FsA) (response userMessage : Str) :
    List Proposal :=
  let blocks := parse_code_blocks response
  let mentioned := extract_file_mentions userMessage
  blocks.foldl
    (fun acc b => pushProp acc (propFor fs blocks.length mentioned userMessage b))
    []

/-- A wall-clock instant as produced by `datetime.now()`
(`file_editor.py`, line 66), with the `datetime` field invariants
(`month ≤ 12`, ..., `microsecond < 1000000`) left to hypotheses where
they matter. -/
structure PyDateTime where
  year : Nat
  month : Nat
  day : Nat
  hour : Nat
  minute : Nat
  second : Nat
  microsecond : Nat
deriving Repr, DecidableEq

/-- The decimal digit character of `n % 10`. -/
def digitChar (n : Nat) : Char := Char.ofNat (48 + n % 10)

/-- `n` rendered as exactly `w` decimal digits, zero-padded (the
fixed-width directives of `strftime` for in-range field values). -/
def padDigits (w n : Nat) : Str :=
  (List.range w).reverse.map (fun k => digitChar (n / 10 ^ k))

/-- `datetime.now().strftime("%Y%m%d_%H%M%S_%f")` (`file_editor.py`,
line 66) for a datetime with in-range fields. -/
def fmtTimestamp (dt : PyDateTime) : Str :=
  padDigits 4 dt.year ++ padDigits 2 dt.month ++ padDigits 2 dt.day ++
    '_' :: (padDigits 2 dt.hour ++ padDigits 2 dt.minute ++
      padDigits 2 dt.second ++ '_' :: padDigits 6 dt.microsecond)

/-- The hidden backup directory `.code_assistant_backups` of the project
root (`file_editor.py`, line 34). -/
def backupDirName : Str := ".code_assistant_backups".toList

/-- The path components of a relative path (split at `/`). -/
def pathSegs (p : Str) : List Str := splitSep '/' p

/-- `Path(p).name`: the last path component. -/
def baseName (p : Str) : Str := (pathSegs p).getLastD []

/-- `Path(p).parent` as a component list (empty for a top-level file;
`pathlib` normalises the resulting `.` component away). -/
def dirSegs (p : Str) : List Str := (pathSegs p).dropLast

/-- The backup location chosen by `FileEditor._create_backup`
(`file_editor.py`, lines 51-84): under the hidden backup directory,
mirroring the file's relative directory structure, with the name
suffixed by the timestamp and `.bak`. -/
def backupPath (p ts : Str) : Str :=
  joinSep '/' (backupDirName :: (dirSegs p ++
    [baseName p ++ '.' :: (ts ++ ".bak".toList)]))

/-- The mutable state of a `FileEditor`: the project files and the log
of backups taken (path and copied content, in creation order). -/
structure EditorState where
  files : FsA
  backups : List (Str × Str)
deriving Repr, DecidableEq

/-- `FileEditor._create_backup` (`file_editor.py`, lines 51-84): copy
the file into the backup store; the copy fails (returning the state
unchanged, as the Python returns `None` and continues) when the file is
missing or unreadable. -/
def create_backup (st : EditorState) (p ts : Str) : EditorState :=
  match fsGet st.files p with
  | some d => if d.readable then
      { st with backups := st.backups ++ [(backupPath p ts, d.content)] }
    else st
  | none => st

/-- `FileEditor.write_file` (`file_editor.py`, lines 115-147): back the
file up first when requested and the file exists, then write.  `wok`
is the I/O oracle: `wok p = false` models an `OSError` while writing
`p`, in which case the function returns `false` with the backup already
taken (exactly as the Python `except` path). -/
def write_file (wok : Str → Bool) (st : EditorState) (p content : Str)
    (createBackup : Bool) (ts : Str) : EditorState × Bool :=
  let st1 := if createBackup && (fsGet st.files p).isSome then
      create_backup st p ts
    else st
  if wok p then
    ({ st1 with files := fsSet st1.files p ⟨content, true⟩ }, true)
  else (st1, false)

/-- `FileEditor.create_file` (`file_editor.py`, lines 149-179): fails
without touching anything when the file already exists; otherwise
writes it (subject to the same I/O oracle). -/
def create_file (wok : Str → Bool) (st : EditorState) (p content : Str) :
    EditorState × Bool :=
  if (fsGet st.files p).isSome then (st, false)
  else if wok p then
    ({ st with files := fsSet st.files p ⟨content, true⟩ }, true)
  else (st, false)

/-- The per-proposal body of `ChatInterface.approve_proposal`
(`chat_interface.py`, lines 430-458): a proposal with empty
`current_content` goes through `create_file`, falling back to an
overwrite without backup when the creation fails; any other proposal is
an update through `write_file` with backup. -/
def applyOne (wok : Str → Bool) (st : EditorState) (ts : Str)
    (p : Proposal) : EditorState × Bool :=
  if p.current_content = [] then
    let r := create_file wok st p.file_path p.new_content
    if r.2 then r
    else write_file wok r.1 p.file_path p.new_content false ts
  else write_file wok st p.file_path p.new_content true ts

/-- The success/failure bookkeeping of one `approve_proposal` call:
`successful_files` and `failed_files` (`chat_interface.py`, lines
425-458). -/
structure ApplyOutcome where
  succeeded : List Str
  failed : List Str
deriving Repr, DecidableEq

/-- The proposal loop of `ChatInterface.approve_proposal`
(`chat_interface.py`, lines 430-458): apply each proposal in queue
order, recording its path as succeeded or failed; a failure never stops
the loop.  `tss i` is the timestamp drawn for the `i`-th proposal. -/
def applyAll (wok : Str → Bool) (tss : Nat → Str) :
    EditorState → List Proposal → Nat → EditorState × ApplyOutcome
  | st, [], _ => (st, ⟨[], []⟩)
  | st, p :: rest, i =>
    let r := applyOne wok st (tss i) p
    let rec' := applyAll wok tss r.1 rest (i + 1)
    if r.2 then
      (rec'.1, ⟨p.file_path :: rec'.2.succeeded, rec'.2.failed⟩)
    else
      (rec'.1, ⟨rec'.2.succeeded, p.file_path :: rec'.2.failed⟩)

/-- The chat-level state relevant to the proposal workflow: the pending
proposal queue and the editor state.  (The git commit and rescan that
`approve_proposal` performs afterwards are external collaborators and
are not part of the claims modelled here.) -/
structure ChatState where
  pending : List Proposal
  editor : EditorState
deriving Repr, DecidableEq

/-- `ChatInterface.approve_proposal` (`chat_interface.py`, lines
414-479): no-op returning `false` on an empty queue; otherwise apply
every pending proposal, clear the queue unconditionally, and return
whether at least one file succeeded. -/
def approve_proposal (wok : Str → Bool) (tss : Nat → Str)
    (s : ChatState) : ChatState × Bool :=
  if s.pending = [] then (s, false)
  else
    let r := applyAll wok tss s.editor s.pending 0
    (⟨[], r.1⟩, !r.2.succeeded.isEmpty)

/-- `ChatInterface.reject_proposal` (`chat_interface.py`, lines
481-496): on an empty queue, print "No pending proposals to reject" and
return having changed nothing (the `false` component models that
"nothing to reject" signal); otherwise clear the queue (`true` = some
proposals were rejected). -/
def reject_proposal (s : ChatState) : ChatState × Bool :=
  if s.pending = [] then (s, false)
  else (⟨[], s.editor⟩, true)

/-! ## General lemmas -/

/-- Folding the proposal-push step equals a `filterMap`. -/
theorem foldl_pushOpt_eq_filterMap {α : Type} (f : α → Option Proposal)
    (l : List α) (acc : List Proposal) :
    l.foldl (fun a x => pushProp a (f x)) acc = acc ++ l.filterMap f := by
  induction l generalizing acc with
  | nil => simp
  | cons x xs ih =>
    rw [List.foldl_cons]
    cases h : f x with
    | none =>
      rw [show pushProp acc none = acc from rfl, ih, List.filterMap_cons, h]
    | some p =>
      rw [show pushProp acc (some p) = acc ++ [p] from rfl, ih,
        List.filterMap_cons, h]
      simp

/-! ## C8 -/

/-- C8: `_is_valid_filename` returns `false` exactly when the name has
neither `.` nor `/`, contains a space, is longer than 200 characters,
or contains one of the characters `< > | : * ? "`; every other string
passes, witnessed on the spec's validator table. -/
theorem C8_validator_characterization :
    (∀ f : Str, is_valid_filename f = false ↔
      ((¬ '.' ∈ f ∧ ¬ '/' ∈ f) ∨ ' ' ∈ f ∨ 200 < f.length ∨
        '<' ∈ f ∨ '>' ∈ f ∨ '|' ∈ f ∨ ':' ∈ f ∨ '*' ∈ f ∨ '?' ∈ f ∨
        '"' ∈ f)) ∧
    is_valid_filename ("README.md".toList) = true ∧
    is_valid_filename ("main.py".toList) = true ∧
    is_valid_filename ("src/app.js".toList) = true ∧
    is_valid_filename ("my file.py".toList) = false ∧
    is_valid_filename ("filename".toList) = false ∧
    is_valid_filename (List.replicate 300 'a' ++ ".py".toList) = false ∧
    is_valid_filename ("a<b.py".toList) = false := by
  refine ⟨?_, by decide, by decide, by decide, by decide, by decide, ?_, by decide⟩
  · intro f
    unfold is_valid_filename invalidChars
    split_ifs with h1 h2 h3 h4 <;> simp_all
  · unfold is_valid_filename
    split_ifs with h1 h2 h3 h4 <;> try rfl
    exact absurd (by rw [List.length_append, List.length_replicate]; norm_num) h3

/-! ## C9 -/

/-- C9: both approve and reject leave the pending queue empty, and
rejecting with an empty queue is a no-op returning the
"nothing to reject" signal. -/
theorem C9_queue_cleared :
    (∀ (wok : Str → Bool) (tss : Nat → Str) (s : ChatState),
      (approve_proposal wok tss s).1.pending = [] ∧
      (reject_proposal s).1.pending = []) ∧
    (∀ s : ChatState, s.pending = [] → reject_proposal s = (s, false)) := by
  constructor
  · intro wok tss s
    constructor
    · unfold approve_proposal
      split
      · next h => simpa using h
      · rfl
    · unfold reject_proposal
      split
      · next h => simpa using h
      · rfl
  · intro s h
    simp [reject_proposal, h]

/-- Witness for C9 at a concrete state. -/
theorem C9_queue_cleared_witness :
    reject_proposal ⟨[], ⟨[], []⟩⟩ = (⟨[], ⟨[], []⟩⟩, false) :=
  C9_queue_cleared.2 ⟨[], ⟨[], []⟩⟩ rfl

/-! ## C1, counterexample -/

/-- C1 fails on the code: inside the markdown block of this text, the
fence line at position 14 declares the non-empty language tag `1x`, so
under the claim it would be an opening fence incrementing the nesting
counter (and the outer block would extend to the end of the text); the
code instead requires the tag to start with an alphabetic character,
treats this fence as the closing fence at counter 0, and ends the block
with content `A`. -/
theorem C1_counterexample :
    pyStrip (pySlice ("```markdown\nA\n```1x\nB\n```".toList) 17 19) =
      "1x".toList ∧
    "1x".toList ≠ [] ∧
    mdScanF ("```markdown\nA\n```1x\nB\n```".toList) 26 12 12 0 = some 14 ∧
    parse_code_blocks ("```markdown\nA\n```1x\nB\n```".toList) =
      [⟨"markdown".toList, ['A'], none⟩] := by
  refine ⟨by decide, by decide, by decide, by decide⟩

/-! ## C2, counterexample -/

/-- C2 fails on the code: in this text no fence begins at a line start
after the opening line (`find("\n\x60\x60\x60", 6)` fails), so under
the claim the block body would be the entire remainder `abc\x60\x60\x60`;
the code instead falls back to `find("\x60\x60\x60", 6)`, finds the
mid-line fence, and stores body `abc`. -/
theorem C2_counterexample :
    pyFindFrom ("```py\nabc```".toList) ('\n' :: "```".toList) 6 = none ∧
    parse_code_blocks ("```py\nabc```".toList) =
      [⟨"py".toList, "abc".toList, none⟩] ∧
    pyStrip (pySlice ("```py\nabc```".toList) 6 12) = "abc```".toList ∧
    "abc".toList ≠ "abc```".toList := by
  refine ⟨by decide, by decide, by decide, by decide⟩

/-! ## C3, counterexample -/

/-- C3 fails on the code: this response parses to a single block whose
filename `main.py` is resolved and valid, but whose content is empty;
`auto_create_files` requires non-empty code (`if filename and code:`)
and creates no proposal. -/
theorem C3_counterexample :
    parse_code_blocks ("```python\n# main.py\n```".toList) =
      [⟨"python".toList, [], some ("main.py".toList)⟩] ∧
    is_valid_filename ("main.py".toList) = true ∧
    auto_create_files [] ("```python\n# main.py\n```".toList) [] = [] := by
  refine ⟨by decide, by decide, by decide⟩

/-! ## C7 -/

/-- The filename-resolution rules as worded by the spec (priority order:
single block + mention; markdown + mention; markdown + "readme";
otherwise unresolved).  Stated separately from `resolveFilename` so the
code can be compared against the spec's wording. -/
def resolveSpec (bf : Option Str) (lang : Str) (n : Nat)
    (mentioned : List Str) (msg : Str) : Option Str :=
  match bf with
  | some f => some f
  | none =>
    if n = 1 ∧ mentioned ≠ [] then some (mentioned.headD [])
    else if (lang = "markdown".toList ∨ lang = "md".toList) ∧
        mentioned ≠ [] then some (mentioned.headD [])
    else if (lang = "markdown".toList ∨ lang = "md".toList) ∧
        containsSub (pyLower msg) ("readme".toList) = true then
      some ("README.md".toList)
    else none

/-- C7: for blocks without a parser-extracted filename the resolver
implements exactly the spec's four rules in priority order; a block
left unresolved yields no proposal; and mention extraction returns
matches in order of first appearance without deduplication. -/
theorem C7_resolver_rules :
    (∀ (bf : Option Str) (lang : Str) (n : Nat) (mentioned : List Str)
        (msg : Str),
      resolveFilename bf lang n mentioned msg =
        resolveSpec bf lang n mentioned msg) ∧
    (∀ (fs : FsA) (n : Nat) (mentioned : List Str) (msg : Str)
        (b : CodeBlock),
      resolveFilename b.filename b.language n mentioned msg = none →
      propFor fs n mentioned msg b = none) ∧
    extract_file_mentions ("use a.py and b.txt and a.py".toList) =
      ["a.py".toList, "b.txt".toList, "a.py".toList] := by
  refine ⟨?_, ?_, by decide⟩
  · intro bf lang n mentioned msg
    cases bf with
    | some f => rfl
    | none =>
      cases mentioned with
      | nil =>
        by_cases hmd : lang = "markdown".toList ∨ lang = "md".toList <;>
          simp_all [resolveFilename, resolveSpec]
      | cons m ms =>
        by_cases hn : n = 1 <;>
          by_cases hmd : lang = "markdown".toList ∨ lang = "md".toList <;>
            simp_all [resolveFilename, resolveSpec]
  · intro fs n mentioned msg b h
    unfold propFor
    rw [h]

/-- Witness for C7 at a concrete unresolved block. -/
theorem C7_resolver_rules_witness :
    propFor [] 2 [] [] ⟨"python".toList, ['x'], none⟩ = none :=
  C7_resolver_rules.2.1 [] 2 [] [] ⟨"python".toList, ['x'], none⟩ (by decide)

/-! ## C3, amended -/

/-- C3 amended: a proposal is pushed exactly for the blocks accepted by
the per-block cascade (resolved non-empty filename, **non-empty
content**, valid filename), in block order; a block with empty content
yields no proposal even when its filename is resolved and valid. -/
theorem C3_amended_push_condition :
    (∀ (fs : FsA) (response msg : Str),
      auto_create_files fs response msg =
        (parse_code_blocks response).filterMap
          (propFor fs (parse_code_blocks response).length
            (extract_file_mentions msg) msg)) ∧
    (∀ (fs : FsA) (n : Nat) (mentioned : List Str) (msg : Str)
        (b : CodeBlock),
      b.code = [] → propFor fs n mentioned msg b = none) := by
  constructor
  · intro fs response msg
    unfold auto_create_files
    exact
      foldl_pushOpt_eq_filterMap
        (propFor fs (parse_code_blocks response).length
          (extract_file_mentions msg) msg)
        (parse_code_blocks response) []
  · intro fs n mentioned msg b hb
    unfold propFor
    cases h : resolveFilename b.filename b.language n mentioned msg <;>
      simp [hb]

/-- Witness for C3's amended claim: the resolved, valid, empty-content
block of the counterexample yields no proposal. -/
theorem C3_amended_witness :
    propFor [] 1 [] [] ⟨"python".toList, [], some ("main.py".toList)⟩ =
      none :=
  C3_amended_push_condition.2 [] 1 [] []
    ⟨"python".toList, [], some ("main.py".toList)⟩ rfl


/-! ## C5 (and shared apply lemmas) -/

/-- Shared: a creation proposal (`current_content = []`) whose file
already exists fails `create_file` and falls back to a backup-free
overwrite. -/
theorem applyOne_create_existing (wok : Str → Bool) (st : EditorState)
    (ts : Str) (p : Proposal) (d : FileData)
    (hcur : p.current_content = [])
    (hex : fsGet st.files p.file_path = some d) :
    (create_file wok st p.file_path p.new_content).2 = false ∧
    (applyOne wok st ts p).1.backups = st.backups ∧
    (wok p.file_path = true →
      (applyOne wok st ts p).2 = true ∧
      fsGet (applyOne wok st ts p).1.files p.file_path =
        some ⟨p.new_content, true⟩) := by
  have hfail : create_file wok st p.file_path p.new_content = (st, false) := by
    unfold create_file
    rw [hex]
    simp
  refine ⟨by rw [hfail], ?_, ?_⟩
  · unfold applyOne
    rw [if_pos hcur, hfail]
    simp only [write_file]
    cases hw : wok p.file_path <;> simp
  · intro hw
    unfold applyOne
    rw [if_pos hcur, hfail]
    simp only [write_file, hw]
    constructor
    · simp
    · simp [fsSet, fsGet]

theorem C5_best_effort_batch :
    (∀ (wok : Str → Bool) (tss : Nat → Str) (st : EditorState)
        (props : List Proposal) (i : Nat),
      (applyAll wok tss st props i).2.succeeded.length +
          (applyAll wok tss st props i).2.failed.length = props.length ∧
      List.Sublist (applyAll wok tss st props i).2.succeeded
        (props.map Proposal.file_path) ∧
      List.Sublist (applyAll wok tss st props i).2.failed
        (props.map Proposal.file_path)) ∧
    (∀ (wok : Str → Bool) (st : EditorState) (ts : Str) (p : Proposal)
        (d : FileData),
      p.current_content = [] → fsGet st.files p.file_path = some d →
      (create_file wok st p.file_path p.new_content).2 = false ∧
      (applyOne wok st ts p).1.backups = st.backups ∧
      (wok p.file_path = true →
        (applyOne wok st ts p).2 = true ∧
        fsGet (applyOne wok st ts p).1.files p.file_path =
          some ⟨p.new_content, true⟩)) := by
  constructor
  · intro wok tss st props i
    induction props generalizing st i with
    | nil => simp [applyAll]
    | cons p rest ih =>
      have h := ih (applyOne wok st (tss i) p).1 (i + 1)
      cases hok : (applyOne wok st (tss i) p).2 with
      | true =>
        simp only [applyAll, hok, if_true, List.map_cons]
        refine ⟨?_, ?_, ?_⟩
        · simp only [List.length_cons]
          omega
        · exact List.Sublist.cons₂ _ h.2.1
        · exact List.Sublist.cons _ h.2.2
      | false =>
        simp only [applyAll, hok, Bool.false_eq_true, if_false, List.map_cons]
        refine ⟨?_, ?_, ?_⟩
        · simp only [List.length_cons]
          omega
        · exact List.Sublist.cons _ h.2.1
        · exact List.Sublist.cons₂ _ h.2.2
  · intro wok st ts p d hcur hex
    exact applyOne_create_existing wok st ts p d hcur hex

theorem padDigits_length (w n : Nat) : (padDigits w n).length = w := by
  simp [padDigits]

theorem padDigits_isDigit (w n : Nat) :
    ∀ c ∈ padDigits w n, c.isDigit = true := by
  intro c hc
  simp only [padDigits, List.mem_map, List.mem_reverse, List.mem_range] at hc
  obtain ⟨k, -, rfl⟩ := hc
  unfold digitChar
  have h10 : n / 10 ^ k % 10 < 10 := Nat.mod_lt _ (by norm_num)
  set r := n / 10 ^ k % 10 with hrdef
  interval_cases r <;> rfl

theorem charAt_append_right (a b : Str) (n : Nat) (h : a.length ≤ n) :
    charAt (a ++ b) n = charAt b (n - a.length) := by
  unfold charAt
  exact List.getD_append_right a b ' ' n h

theorem charAt_cons_zero (c : Char) (s : Str) : charAt (c :: s) 0 = c := rfl

theorem charAt_cons_succ (c : Char) (s : Str) (n : Nat) :
    charAt (c :: s) (n + 1) = charAt s n := rfl

theorem fmtTimestamp_length (dt : PyDateTime) :
    (fmtTimestamp dt).length = 22 := by
  simp [fmtTimestamp, padDigits_length]

theorem fmtTimestamp_sep8 (dt : PyDateTime) :
    charAt (fmtTimestamp dt) 8 = '_' := by
  unfold fmtTimestamp
  rw [charAt_append_right _ _ _ (by simp [padDigits_length])]
  simp [padDigits_length, charAt_cons_zero]

theorem fmtTimestamp_sep15 (dt : PyDateTime) :
    charAt (fmtTimestamp dt) 15 = '_' := by
  unfold fmtTimestamp
  rw [charAt_append_right _ _ _ (by simp [padDigits_length])]
  have h7 : 15 - (padDigits 4 dt.year ++ padDigits 2 dt.month ++
      padDigits 2 dt.day).length = 7 := by
    simp [padDigits_length]
  rw [h7, charAt_cons_succ,
    charAt_append_right _ _ _ (by simp [padDigits_length])]
  simp [padDigits_length, charAt_cons_zero]

theorem fmtTimestamp_chars (dt : PyDateTime) :
    ∀ c ∈ fmtTimestamp dt, c.isDigit = true ∨ c = '_' := by
  unfold fmtTimestamp
  intro c hc
  rcases List.mem_append.mp hc with h | h
  · rcases List.mem_append.mp h with h | h
    · rcases List.mem_append.mp h with h | h
      · exact Or.inl (padDigits_isDigit _ _ c h)
      · exact Or.inl (padDigits_isDigit _ _ c h)
    · exact Or.inl (padDigits_isDigit _ _ c h)
  · rcases List.mem_cons.mp h with h | h
    · exact Or.inr h
    · rcases List.mem_append.mp h with h | h
      · rcases List.mem_append.mp h with h | h
        · rcases List.mem_append.mp h with h | h
          · exact Or.inl (padDigits_isDigit _ _ c h)
          · exact Or.inl (padDigits_isDigit _ _ c h)
        · exact Or.inl (padDigits_isDigit _ _ c h)
      · rcases List.mem_cons.mp h with h | h
        · exact Or.inr h
        · exact Or.inl (padDigits_isDigit _ _ c h)

theorem C4_update_backup :
    ∀ (wok : Str → Bool) (st : EditorState) (p : Proposal)
      (dt : PyDateTime) (d : FileData),
      p.current_content ≠ [] →
      fsGet st.files p.file_path = some d → d.readable = true →
      ((applyOne wok st (fmtTimestamp dt) p).1.backups =
        st.backups ++
          [(joinSep '/' (backupDirName ::
              (dirSegs p.file_path ++
                [baseName p.file_path ++ '.' ::
                  (fmtTimestamp dt ++ ".bak".toList)])),
            d.content)]) ∧
      (wok p.file_path = true →
        (applyOne wok st (fmtTimestamp dt) p).2 = true ∧
        fsGet (applyOne wok st (fmtTimestamp dt) p).1.files p.file_path =
          some ⟨p.new_content, true⟩) ∧
      (fmtTimestamp dt).length = 22 ∧
      charAt (fmtTimestamp dt) 8 = '_' ∧
      charAt (fmtTimestamp dt) 15 = '_' ∧
      (∀ c ∈ fmtTimestamp dt, c.isDigit = true ∨ c = '_') := by
  intro wok st p dt d hcur hex hr
  have happ : applyOne wok st (fmtTimestamp dt) p =
      write_file wok st p.file_path p.new_content true (fmtTimestamp dt) := by
    unfold applyOne
    rw [if_neg hcur]
  have hb : create_backup st p.file_path (fmtTimestamp dt) =
      { st with backups := st.backups ++
          [(backupPath p.file_path (fmtTimestamp dt), d.content)] } := by
    unfold create_backup
    rw [hex]
    simp [hr]
  have hbp : backupPath p.file_path (fmtTimestamp dt) =
      joinSep '/' (backupDirName ::
        (dirSegs p.file_path ++
          [baseName p.file_path ++ '.' ::
            (fmtTimestamp dt ++ ".bak".toList)])) := rfl
  refine ⟨?_, ?_, fmtTimestamp_length dt, fmtTimestamp_sep8 dt,
    fmtTimestamp_sep15 dt, fmtTimestamp_chars dt⟩
  · rw [happ]
    unfold write_file
    rw [hex]
    simp only [Option.isSome_some, Bool.and_true, if_true, hb, hbp]
    cases hw : wok p.file_path <;> simp
  · intro hw
    rw [happ]
    unfold write_file
    rw [hex]
    simp only [Option.isSome_some, Bool.and_true, if_true, hw]
    exact ⟨trivial, by simp [fsSet, fsGet]⟩

theorem C10_empty_read_creation_path :
    ∀ (st : EditorState) (d : FileData) (fname : Str) (wok : Str → Bool)
      (ts : Str) (b : CodeBlock) (n : Nat) (mentioned : List Str)
      (msg : Str),
      fsGet st.files fname = some d →
      (d.content = [] ∨ d.readable = false) →
      resolveFilename b.filename b.language n mentioned msg = some fname →
      fname ≠ [] → b.code ≠ [] → is_valid_filename fname = true →
      read_file st.files fname = [] ∧
      propFor st.files n mentioned msg b =
        some ⟨fname, "Create new file ".toList ++ fname, [], b.code⟩ ∧
      (create_file wok st fname b.code).2 = false ∧
      (applyOne wok st ts
          ⟨fname, "Create new file ".toList ++ fname, [], b.code⟩).1.backups =
        st.backups ∧
      (wok fname = true →
        (applyOne wok st ts
            ⟨fname, "Create new file ".toList ++ fname, [], b.code⟩).2 =
          true ∧
        fsGet (applyOne wok st ts
            ⟨fname, "Create new file ".toList ++ fname, [], b.code⟩).1.files
          fname = some ⟨b.code, true⟩) := by
  intro st d fname wok ts b n mentioned msg hex hread hres hne hcode hval
  have hrf : read_file st.files fname = [] := by
    unfold read_file
    rw [hex]
    rcases hread with h | h <;> simp [h]
  have hprop := applyOne_create_existing wok st ts
    ⟨fname, "Create new file ".toList ++ fname, [], b.code⟩ d rfl hex
  refine ⟨hrf, ?_, hprop.1, hprop.2.1, hprop.2.2⟩
  unfold propFor
  rw [hres]
  simp [hne, hcode, hval, hrf]

/-- Witness for C5 at concrete inputs: a batch of one failing proposal
is fully recorded, and a concrete create-on-existing falls back. -/
theorem C5_best_effort_batch_witness :
    ((applyAll (fun _ => false) (fun _ => []) ⟨[], []⟩
        [⟨"a.py".toList, [], [], ['x']⟩] 0).2.succeeded.length +
      (applyAll (fun _ => false) (fun _ => []) ⟨[], []⟩
        [⟨"a.py".toList, [], [], ['x']⟩] 0).2.failed.length = 1) ∧
    (create_file (fun _ => true) ⟨[("b.py".toList, ⟨['o'], true⟩)], []⟩
        ("b.py".toList) ['n']).2 = false :=
  ⟨(C5_best_effort_batch.1 (fun _ => false) (fun _ => []) ⟨[], []⟩
      [⟨"a.py".toList, [], [], ['x']⟩] 0).1,
    (C5_best_effort_batch.2 (fun _ => true)
      ⟨[("b.py".toList, ⟨['o'], true⟩)], []⟩ []
      ⟨"b.py".toList, [], [], ['n']⟩ ⟨['o'], true⟩ rfl rfl).1⟩

/-- Witness for C4 at a concrete update of `src/app.py`. -/
theorem C4_update_backup_witness :
    (applyOne (fun _ => true)
        ⟨[("src/app.py".toList, ⟨"old".toList, true⟩)], []⟩
        (fmtTimestamp ⟨2026, 10, 12, 1, 2, 3, 4⟩)
        ⟨"src/app.py".toList, [], "old".toList, "new".toList⟩).1.backups =
      [(".code_assistant_backups/src/app.py.20261012_010203_000004.bak".toList,
        "old".toList)] :=
  ((C4_update_backup (fun _ => true)
      ⟨[("src/app.py".toList, ⟨"old".toList, true⟩)], []⟩
      ⟨"src/app.py".toList, [], "old".toList, "new".toList⟩
      ⟨2026, 10, 12, 1, 2, 3, 4⟩ ⟨"old".toList, true⟩
      (by decide) rfl rfl).1).trans (by decide)

/-- Witness for C10 at a concrete existing-but-empty `a.py`. -/
theorem C10_empty_read_creation_path_witness :
    propFor [("a.py".toList, ⟨[], true⟩)] 1 [] []
        ⟨"python".toList, ['x'], some ("a.py".toList)⟩ =
      some ⟨"a.py".toList, "Create new file ".toList ++ "a.py".toList,
        [], ['x']⟩ ∧
    (applyOne (fun _ => true) ⟨[("a.py".toList, ⟨[], true⟩)], []⟩ []
        ⟨"a.py".toList, "Create new file ".toList ++ "a.py".toList,
          [], ['x']⟩).1.backups = [] := by
  have h := C10_empty_read_creation_path
    ⟨[("a.py".toList, ⟨[], true⟩)], []⟩ ⟨[], true⟩ ("a.py".toList)
    (fun _ => true) [] ⟨"python".toList, ['x'], some ("a.py".toList)⟩
    1 [] [] rfl (Or.inl rfl) rfl (by decide) (by decide) (by decide)
  exact ⟨h.2.1, h.2.2.2.1⟩

/-! ## Scanner step lemmas and the C6 string machinery -/

theorem isPrefixOf_cons_cons (x y : Char) (xs ys : Str) :
    (x :: xs).isPrefixOf (y :: ys) = (x == y && xs.isPrefixOf ys) := rfl

theorem findSub0_append_of_forall (pat a b : Str)
    (h : ∀ k, k < a.length → pat.isPrefixOf (List.drop k (a ++ b)) = false) :
    findSub0 pat (a ++ b) = (findSub0 pat b).map (· + a.length) := by
  induction a with
  | nil =>
    cases hfb : findSub0 pat b <;> simp [hfb]
  | cons c a' ih =>
    have h0 : pat.isPrefixOf (c :: (a' ++ b)) = false := by
      have := h 0 (by simp)
      simpa using this
    rw [List.cons_append, findSub0, h0]
    simp only [Bool.false_eq_true, if_false]
    have h' : ∀ k, k < a'.length →
        pat.isPrefixOf (List.drop k (a' ++ b)) = false := by
      intro k hk
      have := h (k + 1) (by simp; omega)
      simpa using this
    rw [ih h']
    cases hfb : findSub0 pat b <;> simp [Nat.add_assoc, Nat.add_comm 1]

theorem head_drop_append (a b : Str) (k : Nat) (hk : k < a.length) :
    List.drop k (a ++ b) = a[k] :: (List.drop (k + 1) a ++ b) := by
  rw [List.drop_append_of_le_length (Nat.le_of_lt hk),
    List.drop_eq_getElem_cons hk, List.cons_append]

theorem nl_pat_skip (pat' a b : Str) (ha : '\n' ∉ a) :
    findSub0 ('\n' :: pat') (a ++ b) =
      (findSub0 ('\n' :: pat') b).map (· + a.length) := by
  apply findSub0_append_of_forall
  intro k hk
  rw [head_drop_append a b k hk, isPrefixOf_cons_cons]
  have : a[k] ≠ '\n' := fun hEq => ha (hEq ▸ List.getElem_mem hk)
  simp [this]
  intro hcontra
  exact absurd hcontra.symm this

theorem containsSub_cons_false (c : Char) (s pat : Str)
    (h : containsSub (c :: s) pat = false) : containsSub s pat = false := by
  unfold containsSub at h ⊢
  rw [findSub0] at h
  by_cases hp : pat.isPrefixOf (c :: s) = true
  · rw [if_pos hp] at h
    simp at h
  · rw [if_neg hp] at h
    cases hfs : findSub0 pat s
    · rfl
    · rw [hfs] at h
      simp at h

theorem fence3_prefix_iff (c1 c2 c3 : Char) (rest : Str) :
    ("```".toList).isPrefixOf (c1 :: c2 :: c3 :: rest) = true ↔
      (c1 = '`' ∧ c2 = '`' ∧ c3 = '`') := by
  show (('`' == c1) && (('`' == c2) && (('`' == c3) &&
      List.isPrefixOf [] rest))) = true ↔ _
  rw [List.isPrefixOf_nil_left]
  simp only [Bool.and_eq_true, beq_iff_eq, and_true]
  constructor
  · rintro ⟨h1, h2, h3⟩
    exact ⟨h1.symm, h2.symm, h3.symm⟩
  · rintro ⟨h1, h2, h3⟩
    exact ⟨h1.symm, h2.symm, h3.symm⟩

theorem fence_notPrefix_of_not_contains (body r : Str)
    (hb : containsSub body ("```".toList) = false) :
    ("```".toList).isPrefixOf (body ++ '
' :: r) = false := by
  match body with
  | [] => rfl
  | [c1] =>
    show (('`' == c1) && (('`' == '
') && _)) = false
    simp
  | [c1, c2] =>
    show (('`' == c1) && (('`' == c2) && (('`' == '
') && _))) = false
    simp
  | c1 :: c2 :: c3 :: rest =>
    rw [Bool.eq_false_iff]
    intro htrue
    have h3 := (fence3_prefix_iff c1 c2 c3 (rest ++ '
' :: r)).mp htrue
    have hpre : ("```".toList).isPrefixOf (c1 :: c2 :: c3 :: rest) = true :=
      (fence3_prefix_iff c1 c2 c3 rest).mpr h3
    unfold containsSub at hb
    rw [findSub0, if_pos hpre] at hb
    simp at hb

theorem findSub0_nlFence (body : Str)
    (hb : containsSub body ("```".toList) = false) :
    findSub0 ('\n' :: "```".toList) (body ++ '\n' :: "```".toList) =
      some body.length := by
  induction body with
  | nil => decide
  | cons c b' ih =>
    have hb' := containsSub_cons_false c b' _ hb
    have hnp : ('\n' :: "```".toList).isPrefixOf
        (c :: (b' ++ '\n' :: "```".toList)) = false := by
      rw [isPrefixOf_cons_cons]
      by_cases hc : c = '\n'
      · subst hc
        rw [fence_notPrefix_of_not_contains b' _ hb']
        simp
      · have : ('\n' == c) = false := by
          simp [beq_iff_eq]
          exact fun h => hc h.symm
        rw [this]
        simp
    rw [List.cons_append, findSub0, hnp]
    simp only [Bool.false_eq_true, if_false]
    rw [ih hb']
    simp

theorem splitSep_ne_nil (sep : Char) (s : Str) : splitSep sep s ≠ [] := by
  cases s with
  | nil => simp [splitSep]
  | cons c cs =>
    unfold splitSep
    by_cases h : c = sep
    · simp [h]
    · rw [if_neg h]
      cases hs : splitSep sep cs <;> simp

theorem joinSep_splitSep (sep : Char) (s : Str) :
    joinSep sep (splitSep sep s) = s := by
  induction s with
  | nil => rfl
  | cons c cs ih =>
    unfold splitSep
    by_cases h : c = sep
    · rw [if_pos h]
      cases hs : splitSep sep cs with
      | nil => exact absurd hs (splitSep_ne_nil sep cs)
      | cons l ls =>
        show joinSep sep ([] :: l :: ls) = c :: cs
        rw [show joinSep sep ([] :: l :: ls) =
            [] ++ sep :: joinSep sep (l :: ls) from rfl]
        rw [List.nil_append, ← hs, ih, h]
    · rw [if_neg h]
      cases hs : splitSep sep cs with
      | nil => exact absurd hs (splitSep_ne_nil sep cs)
      | cons l ls =>
        rw [hs] at ih
        cases ls with
        | nil =>
          show c :: l = c :: cs
          rw [show joinSep sep [l] = l from rfl] at ih
          rw [ih]
        | cons l2 ls2 =>
          show (c :: l) ++ sep :: joinSep sep (l2 :: ls2) = c :: cs
          rw [show joinSep sep (l :: l2 :: ls2) =
              l ++ sep :: joinSep sep (l2 :: ls2) from rfl] at ih
          rw [List.cons_append, ih]

theorem splitSep_append_cons (sep : Char) (a b : Str) (ha : sep ∉ a) :
    splitSep sep (a ++ sep :: b) = a :: splitSep sep b := by
  induction a with
  | nil =>
    show splitSep sep (sep :: b) = [] :: splitSep sep b
    conv_lhs => rw [splitSep]
    rw [if_pos rfl]
  | cons c a' ih =>
    have hc : c ≠ sep := fun h => ha (h ▸ List.mem_cons_self _ _)
    have ha' : sep ∉ a' := fun h => ha (List.mem_cons_of_mem _ h)
    show splitSep sep (c :: (a' ++ sep :: b)) = (c :: a') :: splitSep sep b
    conv_lhs => rw [splitSep]
    rw [if_neg hc, ih ha']

theorem lstripBy_cons_of_neg (p : Char → Bool) (c : Char) (s : Str)
    (h : p c = false) : lstripBy p (c :: s) = c :: s := by
  unfold lstripBy
  rw [h]
  simp

theorem lstripBy_length_le (p : Char → Bool) (s : Str) :
    (lstripBy p s).length ≤ s.length := by
  induction s with
  | nil => simp [lstripBy]
  | cons c cs ih =>
    unfold lstripBy
    by_cases h : p c = true
    · rw [if_pos h]
      simp only [List.length_cons]
      omega
    · rw [if_neg (by simp [h])]

theorem lstripBy_eq_self_head (p : Char → Bool) (c : Char) (s : Str)
    (h : lstripBy p (c :: s) = c :: s) : p c = false := by
  by_contra hc
  have hc' : p c = true := by
    cases hpc : p c
    · exact absurd hpc hc
    · rfl
  rw [show lstripBy p (c :: s) = lstripBy p s from by
    conv_lhs => rw [lstripBy]
    rw [if_pos hc']] at h
  have := lstripBy_length_le p s
  rw [h] at this
  simp at this

theorem rstripWs_append_keep (a b : Str) (hb : rstripWs b = b)
    (hbne : b ≠ []) : rstripWs (a ++ b) = a ++ b := by
  have hb' : lstripBy pyIsSpace b.reverse = b.reverse := by
    have h2 := congrArg List.reverse hb
    unfold rstripWs at h2
    rwa [List.reverse_reverse] at h2
  cases hbr : b.reverse with
  | nil =>
    exact absurd (by simpa using congrArg List.reverse hbr) hbne
  | cons c s =>
    have hpc : pyIsSpace c = false := by
      rw [hbr] at hb'
      exact lstripBy_eq_self_head pyIsSpace c s hb'
    unfold rstripWs
    rw [List.reverse_append, hbr, List.cons_append,
      lstripBy_cons_of_neg pyIsSpace c (s ++ a.reverse) hpc,
      ← List.cons_append, ← hbr, ← List.reverse_append,
      List.reverse_reverse]

theorem scanFromF_at_end (t : Str) (fuel i : Nat) (h : t.length ≤ i) :
    scanFromF t fuel i = [] := by
  cases fuel with
  | zero => rfl
  | succ f =>
    conv_lhs => rw [scanFromF]
    rw [if_neg (by omega)]

theorem mdScanF_step (t : Str) (fuel cs j n : Nat)
    (hj : j < t.length)
    (hline : j = cs ∨ charAt t (j - 1) = '\n')
    (hfence : fenceAt t j = true) :
    mdScanF t (fuel + 1) cs j n =
      (if pyStrip (pySlice t (j + 3)
            ((pyFindFrom t ['\n'] j).getD t.length)) ≠ [] ∧
          (charAt (pyStrip (pySlice t (j + 3)
            ((pyFindFrom t ['\n'] j).getD t.length))) 0).isAlpha then
        mdScanF t fuel cs
          (((pyFindFrom t ['\n'] j).getD t.length) + 1) (n + 1)
      else if 0 < n then
        mdScanF t fuel cs
          (((pyFindFrom t ['\n'] j).getD t.length) + 1) (n - 1)
      else some j) := by
  conv_lhs => rw [mdScanF]
  rw [if_pos hj, if_pos ⟨hline, hfence⟩]

theorem scanFromF_nonmd_step (t : Str) (fuel i lineEnd : Nat)
    (hi : i < t.length) (hfence : fenceAt t i = true)
    (hfind : pyFindFrom t ['\n'] i = some lineEnd)
    (hmd : ¬((if pyStrip (pySlice t (i + 3) lineEnd) = []
          then "text".toList else pyStrip (pySlice t (i + 3) lineEnd)) =
        "markdown".toList ∨
      (if pyStrip (pySlice t (i + 3) lineEnd) = []
          then "text".toList else pyStrip (pySlice t (i + 3) lineEnd)) =
        "md".toList)) :
    scanFromF t (fuel + 1) i =
      (match pyFindFrom t ('\n' :: "```".toList) (lineEnd + 1) with
       | some closing =>
         ⟨(if pyStrip (pySlice t (i + 3) lineEnd) = [] then "text".toList
             else pyStrip (pySlice t (i + 3) lineEnd)),
           pyStrip (liftFilename (pySlice t (lineEnd + 1) closing)).2,
           (liftFilename (pySlice t (lineEnd + 1) closing)).1⟩ ::
           scanFromF t fuel (closing + 4)
       | none =>
         match pyFindFrom t ("```".toList) (lineEnd + 1) with
         | some closing =>
           ⟨(if pyStrip (pySlice t (i + 3) lineEnd) = [] then "text".toList
               else pyStrip (pySlice t (i + 3) lineEnd)),
             pyStrip (liftFilename (pySlice t (lineEnd + 1) closing)).2,
             (liftFilename (pySlice t (lineEnd + 1) closing)).1⟩ ::
             scanFromF t fuel (closing + 4)
         | none =>
           [⟨(if pyStrip (pySlice t (i + 3) lineEnd) = [] then "text".toList
               else pyStrip (pySlice t (i + 3) lineEnd)),
             pyStrip (liftFilename (pySlice t (lineEnd + 1) t.length)).2,
             (liftFilename (pySlice t (lineEnd + 1) t.length)).1⟩]) := by
  conv_lhs => rw [scanFromF]
  rw [if_pos hi, if_pos hfence, hfind]
  simp only []
  rw [if_neg hmd]

theorem isPrefixOf_append_self (pat x : Str) :
    pat.isPrefixOf (pat ++ x) = true := by
  induction pat with
  | nil => exact List.isPrefixOf_nil_left
  | cons c cs ih =>
    rw [List.cons_append, isPrefixOf_cons_cons, ih]
    simp

theorem find_nl_opening (lang rest : Str) (h1 : '\n' ∉ lang) :
    pyFindFrom ("```".toList ++ lang ++ '\n' :: rest) ['\n'] 0 =
      some (3 + lang.length) := by
  unfold pyFindFrom
  rw [List.drop_zero]
  rw [show "```".toList ++ lang ++ '\n' :: rest =
      ("```".toList ++ lang) ++ '\n' :: rest from by
    rw [List.append_assoc]]
  rw [nl_pat_skip [] _ _ (by
    intro hmem
    rcases List.mem_append.mp hmem with h | h
    · simp at h
    · exact h1 h)]
  rw [show findSub0 ['\n'] ('\n' :: rest) = some 0 from by
    conv_lhs => rw [findSub0]
    rw [if_pos (by rw [isPrefixOf_cons_cons, List.isPrefixOf_nil_left]; simp)]]
  simp
  omega

theorem find_close_c6 (lang path body : Str) (h1 : '\n' ∉ lang)
    (h4 : '\n' ∉ path) (h9 : containsSub body ("```".toList) = false) :
    pyFindFrom ("```".toList ++ lang ++ '\n' ::
        ('#' :: ' ' :: (path ++ '\n' :: (body ++ '\n' :: "```".toList))))
      ('\n' :: "```".toList) (3 + lang.length + 1) =
      some (body.length + 1 + (2 + path.length) + (3 + lang.length + 1)) := by
  unfold pyFindFrom
  rw [show "```".toList ++ lang ++ '\n' ::
      ('#' :: ' ' :: (path ++ '\n' :: (body ++ '\n' :: "```".toList))) =
      ("```".toList ++ lang ++ ['\n']) ++
        (('#' :: ' ' :: path) ++ '\n' :: (body ++ '\n' :: "```".toList)) from by
    simp]
  rw [List.drop_left' (by simp; omega)]
  rw [nl_pat_skip ("```".toList) ('#' :: ' ' :: path) _ (by
    intro hmem
    rcases List.mem_cons.mp hmem with h | hmem2
    · exact absurd h (by decide)
    rcases List.mem_cons.mp hmem2 with h | h
    · exact absurd h (by decide)
    · exact h4 h)]
  rw [show findSub0 ('\n' :: "```".toList)
      ('\n' :: (body ++ '\n' :: "```".toList)) =
      some (body.length + 1) from by
    conv_lhs => rw [findSub0]
    rw [if_neg (by
      rw [isPrefixOf_cons_cons,
        fence_notPrefix_of_not_contains body _ h9]
      simp)]
    rw [findSub0_nlFence body h9]
    simp]
  simp
  omega

theorem pyStrip_comment_line (path : Str) (h7 : path ≠ [])
    (h6 : rstripWs path = path) :
    pyStrip ('#' :: ' ' :: path) = '#' :: ' ' :: path := by
  unfold pyStrip lstripWs
  rw [lstripBy_cons_of_neg pyIsSpace '#' _ (by decide)]
  rw [show ('#' :: ' ' :: path) = ['#', ' '] ++ path from rfl]
  exact rstripWs_append_keep ['#', ' '] path h6 h7

theorem pyStrip_space_path (path : Str) (h5 : lstripWs path = path)
    (h6 : rstripWs path = path) :
    pyStrip (' ' :: path) = path := by
  unfold pyStrip
  rw [show lstripWs (' ' :: path) = lstripWs path from by
    unfold lstripWs
    conv_lhs => rw [lstripBy]
    rw [if_pos (by decide)]]
  rw [h5, h6]

theorem lstripHash_comment (path : Str) :
    lstripHash ('#' :: ' ' :: path) = ' ' :: path := by
  unfold lstripHash
  conv_lhs => rw [lstripBy]
  rw [if_pos (by decide)]
  exact lstripBy_cons_of_neg _ ' ' path (by decide)

theorem liftFilename_comment (path body : Str) (h4 : '\n' ∉ path)
    (h7 : path ≠ []) (h5 : lstripWs path = path) (h6 : rstripWs path = path)
    (h8 : '.' ∈ path ∨ '/' ∈ path) :
    liftFilename ('#' :: ' ' :: (path ++ '\n' :: body)) = (some path, body) := by
  have hshape : '#' :: ' ' :: (path ++ '\n' :: body) =
      ('#' :: ' ' :: path) ++ '\n' :: body := by
    simp
  have hsplit : splitNl ('#' :: ' ' :: (path ++ '\n' :: body)) =
      ('#' :: ' ' :: path) :: splitNl body := by
    rw [hshape]
    unfold splitNl
    exact splitSep_append_cons '\n' _ body (by
      intro hmem
      rcases List.mem_cons.mp hmem with h | hmem2
      · exact absurd h (by decide)
      rcases List.mem_cons.mp hmem2 with h | h
      · exact absurd h (by decide)
      · exact h4 h)
  unfold liftFilename
  rw [hsplit]
  simp only []
  rw [pyStrip_comment_line path h7 h6]
  rw [if_pos ⟨by rw [show ("#".toList) = ['#'] from rfl, isPrefixOf_cons_cons,
      List.isPrefixOf_nil_left]; simp,
    by rcases h8 with h | h
       · exact Or.inl (List.mem_cons_of_mem _ (List.mem_cons_of_mem _ h))
       · exact Or.inr (List.mem_cons_of_mem _ (List.mem_cons_of_mem _ h))⟩]
  rw [lstripHash_comment path, pyStrip_space_path path h5 h6]
  rw [if_pos (by
    rcases h8 with h | h
    · exact Or.inr h
    · exact Or.inl h)]
  rw [show joinNl (splitNl body) = body from joinSep_splitSep '\n' body]

/-! ## C6 -/

/-- C6: round-trip of the comment-filename heuristic — a single fenced
non-markdown block whose first body line is a comment `# <path>` (with
`path` containing a `.` or `/`, no newline and no surrounding
whitespace, and a body that is whitespace-trimmed and contains no fence
marker) scans to exactly one block whose filename is that path and
whose stored content is the body with the comment line removed. -/
theorem C6_comment_filename_roundtrip :
    ∀ (lang path body : Str),
      '\n' ∉ lang →
      pyStrip lang ≠ "markdown".toList →
      pyStrip lang ≠ "md".toList →
      '\n' ∉ path → path ≠ [] →
      lstripWs path = path → rstripWs path = path →
      ('.' ∈ path ∨ '/' ∈ path) →
      containsSub body ("```".toList) = false →
      lstripWs body = body → rstripWs body = body →
      parse_code_blocks ("```".toList ++ lang ++ '\n' ::
          ('#' :: ' ' :: (path ++ '\n' :: (body ++ '\n' :: "```".toList)))) =
        [⟨if pyStrip lang = [] then "text".toList else pyStrip lang,
          body, some path⟩] := by
  intro lang path body h1 h2 h3 h4 h7 h5 h6 h8 h9 h10 h11
  have hlen : ("```".toList ++ lang ++ '\n' ::
      ('#' :: ' ' :: (path ++ '\n' :: (body ++ '\n' :: "```".toList)))).length =
      11 + lang.length + path.length + body.length := by
    simp
    omega
  have hslice : pySlice ("```".toList ++ lang ++ '\n' ::
      ('#' :: ' ' :: (path ++ '\n' :: (body ++ '\n' :: "```".toList))))
      (0 + 3) (3 + lang.length) = lang := by
    unfold pySlice
    rw [show (0 + 3) = 3 from rfl]
    rw [List.append_assoc]
    rw [List.drop_left' (show ("```".toList).length = 3 from rfl)]
    rw [show 3 + lang.length - 3 = lang.length from by omega]
    exact List.take_left lang _
  have hcodeslice : pySlice ("```".toList ++ lang ++ '\n' ::
      ('#' :: ' ' :: (path ++ '\n' :: (body ++ '\n' :: "```".toList))))
      (3 + lang.length + 1)
      (body.length + 1 + (2 + path.length) + (3 + lang.length + 1)) =
      '#' :: ' ' :: (path ++ '\n' :: body) := by
    unfold pySlice
    rw [show "```".toList ++ lang ++ '\n' ::
        ('#' :: ' ' :: (path ++ '\n' :: (body ++ '\n' :: "```".toList))) =
        ("```".toList ++ lang ++ ['\n']) ++
          (('#' :: ' ' :: path) ++ '\n' :: (body ++ '\n' :: "```".toList))
        from by simp]
    rw [List.drop_left' (by simp; omega)]
    rw [show body.length + 1 + (2 + path.length) + (3 + lang.length + 1) -
        (3 + lang.length + 1) = (2 + path.length) + 1 + body.length from by
      omega]
    rw [show ('#' :: ' ' :: path) ++ '\n' :: (body ++ '\n' :: "```".toList) =
        (('#' :: ' ' :: path) ++ '\n' :: body) ++ '\n' :: "```".toList
        from by simp]
    rw [List.take_left' (by simp; omega)]
    simp
  have hsb : pyStrip body = body := by
    unfold pyStrip
    rw [h10, h11]
  unfold parse_code_blocks
  rw [hlen]
  rw [scanFromF_nonmd_step _ (11 + lang.length + path.length + body.length)
    0 (3 + lang.length)
    (by rw [hlen]; omega)
    (by
      unfold fenceAt
      rw [List.drop_zero]
      exact isPrefixOf_append_self _ _)
    (find_nl_opening lang _ h1)
    (by
      rw [hslice]
      intro hor
      rcases hor with h | h
      · by_cases he : pyStrip lang = []
        · rw [if_pos he] at h
          exact absurd h (by decide)
        · rw [if_neg he] at h
          exact h2 h
      · by_cases he : pyStrip lang = []
        · rw [if_pos he] at h
          exact absurd h (by decide)
        · rw [if_neg he] at h
          exact h3 h)]
  rw [find_close_c6 lang path body h1 h4 h9]
  simp only []
  rw [hslice, hcodeslice, liftFilename_comment path body h4 h7 h5 h6 h8]
  simp only []
  rw [hsb]
  rw [scanFromF_at_end _ _ _ (by rw [hlen]; omega)]


/-! ## C1, amended -/

/-- C1 amended: inside a markdown block, a fence line whose tag is
non-empty **and starts with an alphabetic character** is an opening
fence incrementing the nesting counter; any other fence line (no tag,
or a tag not starting with a letter) is treated as a closing fence —
decrementing the counter when it is above 0, and ending the outer
markdown block exactly when the counter is 0. -/
theorem C1_amended_fence_classification (t : Str) (fuel cs j n : Nat)
    (hj : j < t.length)
    (hline : j = cs ∨ charAt t (j - 1) = '\n')
    (hfence : fenceAt t j = true) :
    mdScanF t (fuel + 1) cs j n =
      (if pyStrip (pySlice t (j + 3)
            ((pyFindFrom t ['\n'] j).getD t.length)) ≠ [] ∧
          (charAt (pyStrip (pySlice t (j + 3)
            ((pyFindFrom t ['\n'] j).getD t.length))) 0).isAlpha then
        mdScanF t fuel cs
          (((pyFindFrom t ['\n'] j).getD t.length) + 1) (n + 1)
      else if 0 < n then
        mdScanF t fuel cs
          (((pyFindFrom t ['\n'] j).getD t.length) + 1) (n - 1)
      else some j) :=
  mdScanF_step t fuel cs j n hj hline hfence

/-- Witness for the amended C1: a bare closing fence at counter 0 ends
the block at its own position. -/
theorem C1_amended_fence_classification_witness :
    mdScanF ("```q\n```".toList) 1 5 5 0 = some 5 := by
  have h := C1_amended_fence_classification ("```q\n```".toList) 0 5 5 0
    (by decide) (Or.inl rfl) (by decide)
  exact h.trans (by decide)

/-! ## C2, amended -/

/-- C2 amended: scanning is total (the embedding is a total function
returning the blocks in order), and in non-nesting mode the closing
fence is found by first searching for a fence that begins at a line
start; **failing that, any occurrence of a fence marker** (even
mid-line); only when neither exists does the block body extend to the
end of the text. -/
theorem C2_amended_close_search (t : Str) (fuel i lineEnd : Nat)
    (hi : i < t.length) (hfence : fenceAt t i = true)
    (hfind : pyFindFrom t ['\n'] i = some lineEnd)
    (hmd : ¬((if pyStrip (pySlice t (i + 3) lineEnd) = []
          then "text".toList else pyStrip (pySlice t (i + 3) lineEnd)) =
        "markdown".toList ∨
      (if pyStrip (pySlice t (i + 3) lineEnd) = []
          then "text".toList else pyStrip (pySlice t (i + 3) lineEnd)) =
        "md".toList)) :
    scanFromF t (fuel + 1) i =
      (match pyFindFrom t ('\n' :: "```".toList) (lineEnd + 1) with
       | some closing =>
         ⟨(if pyStrip (pySlice t (i + 3) lineEnd) = [] then "text".toList
             else pyStrip (pySlice t (i + 3) lineEnd)),
           pyStrip (liftFilename (pySlice t (lineEnd + 1) closing)).2,
           (liftFilename (pySlice t (lineEnd + 1) closing)).1⟩ ::
           scanFromF t fuel (closing + 4)
       | none =>
         match pyFindFrom t ("```".toList) (lineEnd + 1) with
         | some closing =>
           ⟨(if pyStrip (pySlice t (i + 3) lineEnd) = [] then "text".toList
               else pyStrip (pySlice t (i + 3) lineEnd)),
             pyStrip (liftFilename (pySlice t (lineEnd + 1) closing)).2,
             (liftFilename (pySlice t (lineEnd + 1) closing)).1⟩ ::
             scanFromF t fuel (closing + 4)
         | none =>
           [⟨(if pyStrip (pySlice t (i + 3) lineEnd) = [] then "text".toList
               else pyStrip (pySlice t (i + 3) lineEnd)),
             pyStrip (liftFilename (pySlice t (lineEnd + 1) t.length)).2,
             (liftFilename (pySlice t (lineEnd + 1) t.length)).1⟩]) :=
  scanFromF_nonmd_step t fuel i lineEnd hi hfence hfind hmd

/-- Witness for the amended C2 on a concrete python block. -/
theorem C2_amended_close_search_witness :
    scanFromF ("```py\nX\n```".toList) 12 0 =
      [⟨"py".toList, ['X'], none⟩] := by
  have h := C2_amended_close_search ("```py\nX\n```".toList) 11 0 5
    (by decide) (by decide) (by decide) (by decide)
  exact h.trans (by decide)

/-- Witness for C6 at a concrete block. -/
theorem C6_comment_filename_roundtrip_witness :
    parse_code_blocks ("```".toList ++ "python".toList ++ '\n' ::
        ('#' :: ' ' :: ("src/app.py".toList ++ '\n' ::
          ("print(1)".toList ++ '\n' :: "```".toList)))) =
      [⟨"python".toList, "print(1)".toList, some ("src/app.py".toList)⟩] := by
  have h := C6_comment_filename_roundtrip "python".toList
    "src/app.py".toList "print(1)".toList (by decide) (by decide)
    (by decide) (by decide) (by decide) (by decide) (by decide) (by decide)
    (by decide) (by decide) (by decide)
  exact h.trans (by decide)

/-- Witness for C8: the characterization applied at a concrete name
containing a space. -/
theorem C8_validator_characterization_witness :
    is_valid_filename ("a b.py".toList) = false :=
  (C8_validator_characterization.1 ("a b.py".toList)).mpr
    (Or.inr (Or.inl (by decide)))
